import Mathlib

/-!
Verification of the `s3-repository` package: an ID-indexed document repository
over an S3-like blob store.

The embedding models one bucket of the blob store as a list of physical objects
(key, metadata, body).  All repository functions are translated from
`src/packages/s3-repository/src/*.ts`:

* `listObjectKeys`    — the paginated key lister (`list-object-keys.ts`)
* `findObjectsByMetadata` — the metadata-based locator (`find-objects-by-metadata.ts`)
* `buildPartitionedPath`, `getDatePartitions` — the key partitioner (`partitioning.ts`)
* `normalizePrefix`, `fetchByKey`, `fetchById`, `deleteObject`, `saveObject`,
  `listOp` — the repository facade (`createS3Repository` and its helpers)

JavaScript strings are Lean `String`s; string prefix/suffix tests are modelled
over the character data (`String.data`) so that all definitions are structurally
recursive and evaluable.  `JSON.stringify`/`JSON.parse` are the platform's JSON
library (external to the repository) and are modelled as an abstract
encode/decode pair; a decode failure models a `JSON.parse` exception.
-/

namespace S3Repo

/-- A physical object stored in the bucket: its key, its S3 object metadata
(a string-to-string map, modelled as an association list) and its body. -/
structure S3Object where
  key : String
  metadata : List (String × String)
  body : String
deriving DecidableEq, Repr

/-- One S3 bucket's contents.  Keys are unique in a real bucket; lemmas that
need this take a `Nodup` hypothesis on the key list. -/
abbrev Store := List S3Object

/-- Errors surfaced by the repository code paths:
`noSuchKey` models the SDK's `NoSuchKey` error, `parseError` a `JSON.parse`
exception, `multipleObjectsFound` the `Multiple objects found with id` error
thrown by `fetchById`, and `transport` any other S3 transport error. -/
inductive RepoError where
  | noSuchKey (key : String)
  | parseError (body : String)
  | multipleObjectsFound (id : String)
  | transport (msg : String)
deriving DecidableEq, Repr

/-- The `err instanceof NoSuchKey` test of the source. -/
def RepoError.isNoSuchKey : RepoError → Bool
  | .noSuchKey _ => true
  | _ => false

/-- String prefix test (JavaScript `key.startsWith(p)` / the S3 `Prefix`
filter), over character data. -/
def strPrefixOf (p s : String) : Bool :=
  p.data.isPrefixOf s.data

/-- String suffix test (JavaScript `s.endsWith(post)`), over character data. -/
def strEndsWith (s post : String) : Bool :=
  post.data.isSuffixOf s.data

/-- `Metadata?.[key]`: look a key up in an object's metadata map. -/
def lookupMeta (md : List (String × String)) (k : String) : Option String :=
  (md.find? (fun p => p.1 == k)).map (fun p => p.2)

/-- The object currently stored under key `k`, if any (the bucket's view used
by `HeadObjectCommand` / `GetObjectCommand`). -/
def findObj (store : Store) (k : String) : Option S3Object :=
  store.find? (fun o => o.key == k)

/-- Whether a key falls under a `ListObjectsV2` `Prefix` parameter
(`none` = no prefix restriction: every key matches). -/
def keyMatches : Option String → String → Bool
  | none, _ => true
  | some p, k => strPrefixOf p k

/-- All keys of the bucket that fall under the given listing prefix, in store
order.  This is the totality of keys the `ListObjectsV2` pagination walks. -/
def matchingKeys (store : Store) (pfx : Option String) : List String :=
  (store.map S3Object.key).filter (keyMatches pfx)

/-- The do/while pagination loop of `listObjectKeys`: each `ListObjectsV2` call
returns a page of up to `ps` keys of the remaining matching keys, together with
a continuation token exactly when more keys remain; the loop re-issues the call
with that token until no token is returned.  The continuation token is modelled
as the remaining key list; `fuel` bounds the number of iterations and is always
given as the total key count, which suffices since every page consumes at least
one key when `0 < ps`. -/
def listLoopGo (ps : Nat) : Nat → List String → List String
  | 0, remaining => remaining.take ps
  | fuel + 1, remaining =>
    let page := remaining.take ps
    if ps < remaining.length then page ++ listLoopGo ps fuel (remaining.drop ps)
    else page

/-- `listObjectKeys` (`list-object-keys.ts`): enumerate every key under the
given prefix, following continuation tokens; `ps` is the page size of the
underlying store. -/
def listObjectKeys (store : Store) (pfx : Option String) (ps : Nat) : List String :=
  listLoopGo ps (matchingKeys store pfx).length (matchingKeys store pfx)

/-- The candidate loop of `findObjectsByMetadata`: for each candidate key issue
a `HeadObjectCommand` (an absent key raises `NoSuchKey`, which propagates) and
keep the candidate when `Metadata?.[mk] === mv`. -/
def findByMetaLoop (store : Store) (mk mv : String) : List String → Except RepoError (List String)
  | [] => .ok []
  | c :: rest =>
    match findObj store c with
    | none => .error (.noSuchKey c)
    | some o =>
      if lookupMeta o.metadata mk == some mv then
        (findByMetaLoop store mk mv rest).map (fun rs => c :: rs)
      else
        findByMetaLoop store mk mv rest

/-- `findObjectsByMetadata` (`find-objects-by-metadata.ts`): list all keys under
the prefix, then filter by a metadata field.  The facade's `fetchById` and
`deleteObject` call this without forwarding their client (see the client-use
model at the end of the definitions). -/
def findObjectsByMetadata (store : Store) (pfx : Option String) (mk mv : String)
    (ps : Nat) : Except RepoError (List String) :=
  findByMetaLoop store mk mv (listObjectKeys store pfx ps)

/-- The metadata value the locator's head request observes for key `k`. -/
def metaValue (store : Store) (k mk : String) : Option String :=
  match findObj store k with
  | none => none
  | some o => lookupMeta o.metadata mk

/-- `normalizePrefix`: `undefined ↦ ""`; a prefix already ending with `'/'` is
returned unchanged, otherwise one `'/'` is appended. -/
def normalizePrefix : Option String → String
  | none => ""
  | some p => if strEndsWith p "/" then p else p ++ "/"

/-- `fetchByKey`: `GetObjectCommand` on a key; `NoSuchKey` is caught and turned
into `null`; a body that fails to parse raises (the catch clause rethrows
anything that is not `NoSuchKey`). -/
def fetchByKey {α : Type} (decode : String → Option α) (store : Store) (k : String) :
    Except RepoError (Option α) :=
  match findObj store k with
  | none => .ok none
  | some o =>
    match decode o.body with
    | some t => .ok (some t)
    | none => .error (.parseError o.body)

/-- `fetchById`: locate the physical key(s) for a logical id via the metadata
locator; zero matches yield `null`, more than one raise the
`Multiple objects found` error, exactly one is fetched by key. -/
def fetchById {α : Type} (decode : String → Option α) (store : Store)
    (pfx : Option String) (id : String) (ps : Nat) : Except RepoError (Option α) :=
  match findObjectsByMetadata store pfx "id" id ps with
  | .error e => .error e
  | .ok keys =>
    if keys.length == 0 then .ok none
    else if keys.length > 1 then .error (.multipleObjectsFound id)
    else
      match keys with
      | [] => .ok none
      | k :: _ => fetchByKey decode store k

/-- Effect of one `DeleteObjectCommand` on the bucket: the key is removed if
present (S3's delete succeeds whether or not the key exists). -/
def storeDelete (store : Store) (k : String) : Store :=
  store.filter (fun o => o.key != k)

/-- State effect of `deleteObject`'s for-loop over the located keys. -/
def deleteKeysRun : Store → List String → Store
  | s, [] => s
  | s, k :: ks => deleteKeysRun (storeDelete s k) ks

/-- Error behaviour of `deleteObject`'s for-loop, for an arbitrary client
outcome `del` of each `DeleteObjectCommand`: a `NoSuchKey` error is silently
ignored, any other error is rethrown.  (Against the pure store model `del`
always succeeds; this parametrisation expresses the loop's catch clause for a
client that can fail.) -/
def deleteKeysLoop (del : String → Except RepoError Unit) : List String → Except RepoError Unit
  | [] => .ok ()
  | k :: ks =>
    match del k with
    | .ok _ => deleteKeysLoop del ks
    | .error e => if e.isNoSuchKey then deleteKeysLoop del ks else .error e

/-- `deleteObject`: locate the physical key(s) for the id; zero matches return
silently; otherwise each located key is deleted.  Returns the resulting
bucket contents. -/
def deleteObject (store : Store) (pfx : Option String) (id : String) (ps : Nat) :
    Except RepoError Store :=
  match findObjectsByMetadata store pfx "id" id ps with
  | .error e => .error e
  | .ok keys =>
    if keys.length == 0 then .ok store
    else .ok (deleteKeysRun store keys)

/-- A partition dimension (`partitioning.ts`). -/
structure PartitionKey where
  name : String
  value : String
deriving DecidableEq, Repr

/-- `buildPartitionedPath`: join `name=value` per partition with `'/'`. -/
def buildPartitionedPath (partitions : List PartitionKey) : String :=
  String.intercalate "/" (partitions.map (fun p => p.name ++ "=" ++ p.value))

/-- One captured UTC wall-clock instant (`new Date()`), with the raw values
returned by `getUTCFullYear` / `getUTCMonth` (0-based) / `getUTCDate`. -/
structure JsDate where
  utcFullYear : Int
  utcMonth : Nat
  utcDate : Nat
deriving DecidableEq, Repr

/-- `getDatePartitions`: year/month/day partitions of a single captured
instant; the source adds 1 to the 0-based JavaScript month. -/
def getDatePartitions (now : JsDate) : List PartitionKey :=
  [⟨"year", toString now.utcFullYear⟩,
   ⟨"month", toString (now.utcMonth + 1)⟩,
   ⟨"day", toString now.utcDate⟩]

/-- Physical coordinates returned by `save`. -/
structure ObjectCoordinates where
  bucket : String
  key : String
deriving DecidableEq, Repr

/-- Effect of `PutObjectCommand`: overwrite the object at the key if one
exists, otherwise add the new object. -/
def storePut : Store → S3Object → Store
  | [], obj => [obj]
  | o :: rest, obj => if o.key == obj.key then obj :: rest else o :: storePut rest obj

/-- `saveObject`: build a fresh partitioned key from the current date and the
id, serialize the data, and put it with `Metadata: { id }`. -/
def saveObject {α : Type} (encode : α → String) (store : Store) (bucket : String)
    (pfx : Option String) (id : String) (data : α) (now : JsDate) :
    Store × ObjectCoordinates :=
  let prefixPart := match pfx with
    | none => ""
    | some p => normalizePrefix (some p)
  let key := prefixPart ++ buildPartitionedPath
      (getDatePartitions now ++ [⟨"id", id⟩])
  (storePut store ⟨key, [("id", id)], encode data⟩, ⟨bucket, key⟩)

/-- The per-key fetch fan-out of `list` (`Promise.all` over `fetchByKey`): the
first error rejects the whole batch. -/
def fetchAllByKeys {α : Type} (decode : String → Option α) (store : Store) :
    List String → Except RepoError (List (Option α))
  | [] => .ok []
  | k :: ks =>
    match fetchByKey decode store k with
    | .error e => .error e
    | .ok r =>
      match fetchAllByKeys decode store ks with
      | .error e => .error e
      | .ok rs => .ok (r :: rs)

/-- `list` with the listing phase and the fetch phase distinguished: keys are
listed against `storeL`, bodies are fetched against `storeF`.  The two stores
coincide unless the bucket mutates between the listing and the fetches (the
concurrent-deletion race the design discusses).  `compact` drops the `null`
results. -/
def listOpWith {α : Type} (decode : String → Option α) (storeL storeF : Store)
    (pfx : Option String) (ps : Nat) : Except RepoError (List α) :=
  match fetchAllByKeys decode storeF (listObjectKeys storeL pfx ps) with
  | .error e => .error e
  | .ok rs => .ok (rs.filterMap (fun r => r))

/-- `list` of the facade: list keys under the (raw) prefix, fetch every body,
compact. -/
def listOp {α : Type} (decode : String → Option α) (store : Store)
    (pfx : Option String) (ps : Nat) : Except RepoError (List α) :=
  listOpWith decode store store pfx ps

/-! ### Client use

Which S3 client each S3 call is issued through.  `supplied` is the client the
facade received at construction; `defaultNew` is a fresh `new S3Client({})`
produced by a defaulted `client` option.  These definitions transcribe the
client plumbing of the source: `createS3Repository` passes its client to
`deleteObject`/`fetchById`/`fetchByKey`/`listObjectKeys`/`saveObject`, but
`deleteObject` and `fetchById` call `findObjectsByMetadata` without a `client`
entry in its options, so that call resolves its defaulted parameter. -/

/-- Which client a function with a defaulted `client` option ends up using. -/
inductive ClientUsed where
  | supplied
  | defaultNew
deriving DecidableEq, Repr

/-- Resolution of `client = new S3Client({})` parameter defaulting. -/
def resolveClient (passed : Option ClientUsed) : ClientUsed :=
  passed.getD .defaultNew

/-- Client used by every `ListObjectsV2Command` of `listObjectKeys`. -/
def listObjectKeysClient (passed : Option ClientUsed) : ClientUsed :=
  resolveClient passed

/-- Clients used by `findObjectsByMetadata`: (the listing calls, the
`HeadObjectCommand` calls).  It forwards its own resolved client to
`listObjectKeys`. -/
def findObjectsByMetadataClients (passed : Option ClientUsed) : ClientUsed × ClientUsed :=
  (listObjectKeysClient (some (resolveClient passed)), resolveClient passed)

/-- Clients used by `deleteObject client …`: (locator's (listing, head)
clients, `DeleteObjectCommand` client).  The source calls
`findObjectsByMetadata({ bucket, prefix, key: 'id', value: id })` with no
`client` entry. -/
def deleteObjectClients (client : ClientUsed) : (ClientUsed × ClientUsed) × ClientUsed :=
  (findObjectsByMetadataClients none, client)

/-- Clients used by `fetchById client …`: (locator's (listing, head) clients,
`fetchByKey`'s `GetObjectCommand` client).  The locator call again carries no
`client` entry. -/
def fetchByIdClients (client : ClientUsed) : (ClientUsed × ClientUsed) × ClientUsed :=
  (findObjectsByMetadataClients none, client)

/-- Client used by `saveObject`'s `PutObjectCommand`. -/
def saveObjectClient (client : ClientUsed) : ClientUsed :=
  client

/-- Clients used by the facade's `list`: (the `listObjectKeys` calls, the
`fetchByKey` calls).  `list` passes its client to both. -/
def listOpClients (client : ClientUsed) : ClientUsed × ClientUsed :=
  (listObjectKeysClient (some client), client)

/-! ### Helper lemmas: string prefixes -/

theorem listIsPrefixOf_append_self (a b : List Char) : a.isPrefixOf (a ++ b) = true := by
  induction a with
  | nil => simp
  | cons x xs ih => simp [List.isPrefixOf, ih]

theorem listIsPrefixOf_trichot :
    ∀ (c a b : List Char), a.isPrefixOf c = true → b.isPrefixOf c = true →
      a.isPrefixOf b = true ∨ b.isPrefixOf a = true := by
  intro c
  induction c with
  | nil =>
    intro a b ha _
    cases a with
    | nil => exact Or.inl (by simp)
    | cons x xs => simp [List.isPrefixOf] at ha
  | cons z zs ih =>
    intro a b ha hb
    cases a with
    | nil => exact Or.inl (by simp)
    | cons x xs =>
      cases b with
      | nil => exact Or.inr (by simp)
      | cons y ys =>
        simp only [List.isPrefixOf, Bool.and_eq_true, beq_iff_eq] at ha hb ⊢
        rcases ha with ⟨hxz, ha'⟩
        rcases hb with ⟨hyz, hb'⟩
        rcases ih xs ys ha' hb' with h | h
        · exact Or.inl ⟨hxz.trans hyz.symm, h⟩
        · exact Or.inr ⟨hyz.trans hxz.symm, h⟩

theorem strPrefixOf_append (a b : String) : strPrefixOf a (a ++ b) = true := by
  rw [strPrefixOf, String.data_append]
  exact listIsPrefixOf_append_self a.data b.data

theorem strPrefixOf_trichot (a b c : String) (ha : strPrefixOf a c = true)
    (hb : strPrefixOf b c = true) : strPrefixOf a b = true ∨ strPrefixOf b a = true :=
  listIsPrefixOf_trichot c.data a.data b.data ha hb

theorem strEndsWith_slash (p : String) : strEndsWith (p ++ "/") "/" = true := by
  simp [strEndsWith, String.data_append, List.isSuffixOf,
    show ("/" : String).data = ['/'] from rfl, List.reverse_append, List.isPrefixOf]

theorem normalizePrefix_endsWith (p : String) :
    strEndsWith (normalizePrefix (some p)) "/" = true := by
  by_cases h : strEndsWith p "/" = true
  · rw [show normalizePrefix (some p) = p by simp [normalizePrefix, h]]
    exact h
  · rw [show normalizePrefix (some p) = p ++ "/" by simp [normalizePrefix, h]]
    exact strEndsWith_slash p

theorem keyMatches_normalizePrefix_append (pfx : Option String) (s : String) :
    keyMatches pfx (normalizePrefix pfx ++ s) = true := by
  cases pfx with
  | none => rfl
  | some p =>
    show strPrefixOf p (normalizePrefix (some p) ++ s) = true
    by_cases h : strEndsWith p "/" = true
    · rw [show normalizePrefix (some p) = p by simp [normalizePrefix, h]]
      exact strPrefixOf_append p s
    · rw [show normalizePrefix (some p) = p ++ "/" by simp [normalizePrefix, h]]
      rw [String.append_assoc]
      exact strPrefixOf_append p ("/" ++ s)

/-! ### Helper lemmas: pagination -/

theorem listLoopGo_eq (ps : Nat) :
    ∀ (fuel : Nat) (m : List String), m.length ≤ fuel * ps + ps → listLoopGo ps fuel m = m := by
  intro fuel
  induction fuel with
  | zero =>
    intro m hm
    simp only [Nat.zero_mul, Nat.zero_add] at hm
    simpa [listLoopGo] using List.take_of_length_le hm
  | succ f ih =>
    intro m hm
    rw [listLoopGo]
    by_cases h : ps < m.length
    · rw [if_pos h, ih (m.drop ps) ?_, List.take_append_drop]
      rw [List.length_drop]
      have hsm : (f + 1) * ps = f * ps + ps := Nat.succ_mul f ps
      rw [hsm] at hm
      generalize f * ps = a at *
      omega
    · rw [if_neg h]
      exact List.take_of_length_le (Nat.le_of_not_lt h)

theorem listObjectKeys_eq (store : Store) (pfx : Option String) (ps : Nat) (hps : 0 < ps) :
    listObjectKeys store pfx ps = matchingKeys store pfx := by
  apply listLoopGo_eq ps
  have h1 : (matchingKeys store pfx).length * 1 ≤ (matchingKeys store pfx).length * ps :=
    Nat.mul_le_mul_left _ hps
  simp only [Nat.mul_one] at h1
  exact Nat.le_add_right_of_le h1

/-! ### Helper lemmas: locator -/

theorem findObj_isSome_of_mem_keys {store : Store} {k : String}
    (h : k ∈ store.map S3Object.key) : (findObj store k).isSome = true := by
  rcases List.mem_map.1 h with ⟨o, ho, rfl⟩
  simp only [findObj, List.find?_isSome]
  exact ⟨o, ho, by simp⟩

theorem findByMetaLoop_eq (store : Store) (mk mv : String) :
    ∀ (cs : List String), (∀ c ∈ cs, (findObj store c).isSome = true) →
      findByMetaLoop store mk mv cs =
        .ok (cs.filter fun c => metaValue store c mk == some mv) := by
  intro cs
  induction cs with
  | nil => intro _; rfl
  | cons c rest ih =>
    intro h
    have hc : (findObj store c).isSome = true := h c (List.mem_cons_self c rest)
    rcases Option.isSome_iff_exists.1 hc with ⟨o, ho⟩
    have hrest := ih (fun c' hc' => h c' (List.mem_cons_of_mem _ hc'))
    have hmv : metaValue store c mk = lookupMeta o.metadata mk := by
      rw [metaValue, ho]
    simp only [findByMetaLoop, ho]
    by_cases hcond : (lookupMeta o.metadata mk == some mv) = true
    · rw [if_pos hcond, hrest]
      rw [List.filter_cons_of_pos (by rw [hmv]; exact hcond)]
      rfl
    · rw [if_neg hcond, hrest]
      rw [List.filter_cons_of_neg (by rw [hmv]; exact hcond)]

theorem findObjectsByMetadata_eq (store : Store) (pfx : Option String) (mk mv : String)
    (ps : Nat) (hps : 0 < ps) :
    findObjectsByMetadata store pfx mk mv ps =
      .ok ((matchingKeys store pfx).filter fun c => metaValue store c mk == some mv) := by
  rw [findObjectsByMetadata, listObjectKeys_eq store pfx ps hps]
  apply findByMetaLoop_eq
  intro c hc
  exact findObj_isSome_of_mem_keys (List.mem_filter.1 hc).1

theorem fetchById_of_find_nil {α : Type} (decode : String → Option α) (store : Store)
    (pfx : Option String) (id : String) (ps : Nat)
    (h : findObjectsByMetadata store pfx "id" id ps = .ok []) :
    fetchById decode store pfx id ps = .ok none := by
  simp [fetchById, h]

theorem fetchById_of_find_single {α : Type} (decode : String → Option α) (store : Store)
    (pfx : Option String) (id : String) (ps : Nat) (k : String)
    (h : findObjectsByMetadata store pfx "id" id ps = .ok [k]) :
    fetchById decode store pfx id ps = fetchByKey decode store k := by
  simp [fetchById, h]

theorem fetchById_of_find_multi {α : Type} (decode : String → Option α) (store : Store)
    (pfx : Option String) (id : String) (ps : Nat) (k1 k2 : String) (rest : List String)
    (h : findObjectsByMetadata store pfx "id" id ps = .ok (k1 :: k2 :: rest)) :
    fetchById decode store pfx id ps = .error (.multipleObjectsFound id) := by
  have hlen : (k1 :: k2 :: rest).length > 1 := by
    simp only [List.length_cons]
    omega
  have h0 : ((k1 :: k2 :: rest).length == 0) = false := by
    simp
  simp [fetchById, h, h0, hlen]

theorem deleteObject_of_find (store : Store) (pfx : Option String) (id : String)
    (ps : Nat) (keys : List String)
    (h : findObjectsByMetadata store pfx "id" id ps = .ok keys) :
    deleteObject store pfx id ps =
      if (keys.length == 0) = true then .ok store
      else .ok (deleteKeysRun store keys) := by
  simp only [deleteObject, h]

/-! ### Helper lemmas: store updates -/

theorem findObj_storePut_self (s : Store) (obj : S3Object) :
    findObj (storePut s obj) obj.key = some obj := by
  induction s with
  | nil => simp [storePut, findObj]
  | cons o rest ih =>
    by_cases h : (o.key == obj.key) = true
    · simp [storePut, h, findObj]
    · have h' : (o.key == obj.key) = false := by
        simp only [Bool.not_eq_true] at h
        exact h
      rw [storePut, if_neg (by simp [h']), findObj, List.find?_cons, h']
      exact ih

theorem findObj_storePut_ne (s : Store) (obj : S3Object) (c : String) (h : c ≠ obj.key) :
    findObj (storePut s obj) c = findObj s c := by
  induction s with
  | nil =>
    rw [storePut, findObj, List.find?_cons,
      show (obj.key == c) = false by simp [Ne.symm h]]
    rfl
  | cons o rest ih =>
    by_cases ho : (o.key == obj.key) = true
    · have hokey : o.key = obj.key := beq_iff_eq.1 ho
      rw [storePut, if_pos ho, findObj, findObj]
      simp only [List.find?_cons]
      rw [show (obj.key == c) = false by simp [Ne.symm h],
        show (o.key == c) = false by simp [hokey, Ne.symm h]]
    · rw [storePut, if_neg ho, findObj, findObj]
      simp only [List.find?_cons]
      by_cases hc : (o.key == c) = true
      · rw [hc]
      · rw [show (o.key == c) = false by
          simp only [Bool.not_eq_true] at hc; exact hc]
        exact ih

theorem mem_storePut (s : Store) (obj o : S3Object) (h : o ∈ storePut s obj) :
    o = obj ∨ o ∈ s := by
  induction s with
  | nil =>
    rw [storePut] at h
    rcases List.mem_singleton.1 h with rfl
    exact Or.inl rfl
  | cons x rest ih =>
    by_cases hx : (x.key == obj.key) = true
    · rw [storePut, if_pos hx] at h
      rcases List.mem_cons.1 h with rfl | hmem
      · exact Or.inl rfl
      · exact Or.inr (List.mem_cons_of_mem _ hmem)
    · rw [storePut, if_neg hx] at h
      rcases List.mem_cons.1 h with rfl | hmem
      · exact Or.inr (List.mem_cons_self _ _)
      · rcases ih hmem with h' | h'
        · exact Or.inl h'
        · exact Or.inr (List.mem_cons_of_mem _ h')

theorem map_key_storePut (s : Store) (obj : S3Object) :
    (storePut s obj).map S3Object.key =
      if obj.key ∈ s.map S3Object.key then s.map S3Object.key
      else s.map S3Object.key ++ [obj.key] := by
  induction s with
  | nil => simp [storePut]
  | cons o rest ih =>
    by_cases h : (o.key == obj.key) = true
    · have hkey : o.key = obj.key := beq_iff_eq.1 h
      rw [storePut, if_pos h]
      simp [hkey]
    · have hkey : o.key ≠ obj.key := by
        intro he
        exact h (by simp [he])
      rw [storePut, if_neg h]
      simp only [List.map_cons]
      by_cases hc : obj.key ∈ rest.map S3Object.key
      · rw [if_pos (List.mem_cons_of_mem _ hc), ih, if_pos hc]
      · rw [if_neg (by
          intro hmem
          rcases List.mem_cons.1 hmem with he | hm
          · exact hkey he.symm
          · exact hc hm)]
        rw [ih, if_neg hc, List.cons_append]

theorem deleteKeysRun_eq_filter (keys : List String) : ∀ s : Store,
    deleteKeysRun s keys = s.filter (fun o => !(keys.contains o.key)) := by
  induction keys with
  | nil =>
    intro s
    simp [deleteKeysRun]
  | cons k ks ih =>
    intro s
    rw [deleteKeysRun, ih, storeDelete, List.filter_filter]
    apply List.filter_congr
    intro o _
    simp only [List.contains_cons, Bool.not_or, bne]
    rw [Bool.and_comm]

theorem mem_deleteKeysRun (s : Store) (keys : List String) (o : S3Object)
    (ho : o ∈ s) (hk : ∀ k ∈ keys, o.key ≠ k) : o ∈ deleteKeysRun s keys := by
  rw [deleteKeysRun_eq_filter]
  apply List.mem_filter.2
  refine ⟨ho, ?_⟩
  suffices hm : o.key ∉ keys by simp [hm]
  intro hmem
  exact hk o.key hmem rfl

/-! ### Helper lemmas: filtering and fetching -/

theorem findObj_mem_key : ∀ {store : Store} {k : String} {o : S3Object},
    findObj store k = some o → o ∈ store ∧ o.key = k := by
  intro store
  induction store with
  | nil => intro k o h; cases h
  | cons x rest ih =>
    intro k o h
    rw [findObj, List.find?_cons] at h
    cases hx : (x.key == k) with
    | true =>
      rw [hx] at h
      cases h
      exact ⟨List.mem_cons_self x rest, beq_iff_eq.1 hx⟩
    | false =>
      rw [hx] at h
      rcases ih h with ⟨hmem, hkey⟩
      exact ⟨List.mem_cons_of_mem _ hmem, hkey⟩

theorem filter_eq_singleton {l : List String} {p : String → Bool} {a : String}
    (hnd : l.Nodup) (ha : a ∈ l) (hpa : p a = true)
    (hothers : ∀ b ∈ l, b ≠ a → p b = false) : l.filter p = [a] := by
  induction l with
  | nil => cases ha
  | cons x xs ih =>
    rcases List.mem_cons.1 ha with rfl | hmem
    · rw [List.filter_cons_of_pos hpa]
      have hrest : xs.filter p = [] := by
        rw [List.filter_eq_nil_iff]
        intro b hb
        have hbne : b ≠ a := by
          intro he
          subst he
          exact (List.nodup_cons.1 hnd).1 hb
        simp [hothers b (List.mem_cons_of_mem _ hb) hbne]
      rw [hrest]
    · have hxa : x ≠ a := by
        intro he
        subst he
        exact (List.nodup_cons.1 hnd).1 hmem
      rw [List.filter_cons_of_neg (by simp [hothers x (List.mem_cons_self x xs) hxa])]
      exact ih (List.nodup_cons.1 hnd).2 hmem
        (fun b hb hbne => hothers b (List.mem_cons_of_mem _ hb) hbne)

theorem filterMap_congr_mem {γ β : Type} {l : List γ} {f g : γ → Option β}
    (h : ∀ a ∈ l, f a = g a) : l.filterMap f = l.filterMap g := by
  induction l with
  | nil => rfl
  | cons a as ih =>
    rw [List.filterMap_cons, List.filterMap_cons,
      h a (List.mem_cons_self a as),
      ih (fun b hb => h b (List.mem_cons_of_mem _ hb))]

theorem fetchAllByKeys_ok {α : Type} (decode : String → Option α) (storeF : Store) :
    ∀ (keys : List String),
      (∀ k ∈ keys, ∀ o, findObj storeF k = some o → (decode o.body).isSome = true) →
      fetchAllByKeys decode storeF keys =
        .ok (keys.map fun k => (findObj storeF k).bind fun o => decode o.body) := by
  intro keys
  induction keys with
  | nil => intro _; rfl
  | cons k ks ih =>
    intro h
    have hrest := ih (fun k' hk' => h k' (List.mem_cons_of_mem _ hk'))
    cases hfo : findObj storeF k with
    | none =>
      have hfbk : fetchByKey decode storeF k = .ok none := by
        simp [fetchByKey, hfo]
      rw [fetchAllByKeys, hfbk, hrest, List.map_cons]
      simp [hfo]
    | some o =>
      have hd : (decode o.body).isSome = true := h k (List.mem_cons_self k ks) o hfo
      rcases Option.isSome_iff_exists.1 hd with ⟨t, ht⟩
      have hfbk : fetchByKey decode storeF k = .ok (some t) := by
        simp [fetchByKey, hfo, ht]
      rw [fetchAllByKeys, hfbk, hrest, List.map_cons]
      simp [hfo, ht]

theorem fetchAllByKeys_ok_no_parse_failure {α : Type} (decode : String → Option α)
    (storeF : Store) :
    ∀ (keys : List String) (res : List (Option α)),
      fetchAllByKeys decode storeF keys = .ok res →
      ∀ k ∈ keys, ∀ o, findObj storeF k = some o → decode o.body ≠ none := by
  intro keys
  induction keys with
  | nil => intro res _ k hk; cases hk
  | cons k ks ih =>
    intro res hres k' hk' o hfo hdec
    rw [fetchAllByKeys] at hres
    rcases List.mem_cons.1 hk' with rfl | hmem
    · have hfbk : fetchByKey decode storeF k' = .error (.parseError o.body) := by
        simp [fetchByKey, hfo, hdec]
      simp [hfbk] at hres
    · cases hfbk : fetchByKey decode storeF k with
      | error e => simp [hfbk] at hres
      | ok r =>
        simp only [hfbk] at hres
        cases hall : fetchAllByKeys decode storeF ks with
        | error e => simp [hall] at hres
        | ok rs => exact ih rs hall k' hmem o hfo hdec

theorem filterMap_keys_filter {β : Type} :
    ∀ (store : Store), (store.map S3Object.key).Nodup →
      ∀ (p : String → Bool) (f : S3Object → Option β),
        ((store.map S3Object.key).filter p).filterMap
            (fun k => (findObj store k).bind f) =
          (store.filter fun o => p o.key).filterMap f := by
  intro store
  induction store with
  | nil => intro _ p f; rfl
  | cons o rest ih =>
    intro hnd p f
    have hnotin : o.key ∉ rest.map S3Object.key := (List.nodup_cons.1 hnd).1
    have hndrest := (List.nodup_cons.1 hnd).2
    have hcongr : ∀ k ∈ (rest.map S3Object.key).filter p,
        (findObj (o :: rest) k).bind f = (findObj rest k).bind f := by
      intro k hk
      have hkmem : k ∈ rest.map S3Object.key := (List.mem_filter.1 hk).1
      have hne : (o.key == k) = false := by
        simp only [beq_eq_false_iff_ne, ne_eq]
        intro he
        exact hnotin (he ▸ hkmem)
      rw [findObj, findObj, List.find?_cons, hne]
    have htail : ((rest.map S3Object.key).filter p).filterMap
        (fun k => (findObj (o :: rest) k).bind f) =
        (rest.filter fun o' => p o'.key).filterMap f :=
      (filterMap_congr_mem hcongr).trans (ih hndrest p f)
    by_cases hp : p o.key = true
    · rw [List.map_cons, List.filter_cons_of_pos hp,
        @List.filter_cons_of_pos S3Object (fun o' => p o'.key) o rest hp,
        List.filterMap_cons, List.filterMap_cons]
      have hhead : (findObj (o :: rest) o.key).bind f = f o := by
        rw [findObj, List.find?_cons]
        simp
      rw [hhead, htail]
    · rw [List.map_cons, List.filter_cons_of_neg hp,
        @List.filter_cons_of_neg S3Object (fun o' => p o'.key) o rest hp]
      exact htail

/-! ### Helper lemmas: the delete loop -/

theorem deleteKeysLoop_ok (del : String → Except RepoError Unit) :
    ∀ (ks : List String),
      (∀ k ∈ ks, del k = .ok () ∨ ∃ k', del k = .error (RepoError.noSuchKey k')) →
      deleteKeysLoop del ks = .ok () := by
  intro ks
  induction ks with
  | nil => intro _; rfl
  | cons k rest ih =>
    intro h
    have hrest := ih (fun k' hk' => h k' (List.mem_cons_of_mem _ hk'))
    rcases h k (List.mem_cons_self k rest) with hok | ⟨k', herr⟩
    · rw [deleteKeysLoop, hok]
      exact hrest
    · rw [deleteKeysLoop, herr]
      simp only [RepoError.isNoSuchKey, if_pos rfl]
      exact hrest

theorem deleteKeysLoop_propagates (del : String → Except RepoError Unit) :
    ∀ (ks₁ : List String) (k : String) (ks₂ : List String) (e : RepoError),
      (∀ k' ∈ ks₁, del k' = .ok ()) → del k = .error e → e.isNoSuchKey = false →
      deleteKeysLoop del (ks₁ ++ k :: ks₂) = .error e := by
  intro ks₁
  induction ks₁ with
  | nil =>
    intro k ks₂ e _ herr hns
    rw [List.nil_append, deleteKeysLoop, herr]
    simp [hns]
  | cons k₀ rest ih =>
    intro k ks₂ e hok herr hns
    rw [List.cons_append, deleteKeysLoop, hok k₀ (List.mem_cons_self k₀ rest)]
    exact ih k ks₂ e (fun k' hk' => hok k' (List.mem_cons_of_mem _ hk')) herr hns

/-! ### Helper lemmas: the partitioned path -/

theorem intercalate_go_append_single (x : String) :
    ∀ (l : List String) (acc : String),
      String.intercalate.go acc "/" (l ++ [x]) =
        String.intercalate.go acc "/" l ++ "/" ++ x := by
  intro l
  induction l with
  | nil => intro acc; rfl
  | cons a as ih =>
    intro acc
    rw [List.cons_append, String.intercalate.go, String.intercalate.go]
    exact ih (acc ++ "/" ++ a)

theorem listOpWith_ok {α : Type} (decode : String → Option α) (storeL storeF : Store)
    (pfx : Option String) (ps : Nat)
    (h : ∀ k ∈ listObjectKeys storeL pfx ps, ∀ o, findObj storeF k = some o →
      (decode o.body).isSome = true) :
    listOpWith decode storeL storeF pfx ps =
      .ok ((listObjectKeys storeL pfx ps).filterMap
        fun k => (findObj storeF k).bind fun o => decode o.body) := by
  rw [listOpWith, fetchAllByKeys_ok decode storeF _ h]
  simp only [List.filterMap_map]
  rfl

/-! ## Claim theorems -/

/-- C8: for every logical id for which the locator finds zero matching physical
keys, `get(id)` returns the explicit absent marker (`null`, modelled as
`.ok none`) and never raises an error. -/
theorem C8_get_absent {α : Type} (decode : String → Option α) (store : Store)
    (pfx : Option String) (id : String) (ps : Nat)
    (h : findObjectsByMetadata store pfx "id" id ps = .ok []) :
    fetchById decode store pfx id ps = .ok none := by
  simp [fetchById, h]

/-- Witness for C8 at a concrete input: on the empty store the locator finds
nothing and `get` returns the absent marker. -/
theorem C8_get_absent_witness :
    findObjectsByMetadata [] none "id" "X" 1 = .ok []
    ∧ fetchById (fun s => some s) ([] : Store) none "X" 1 = .ok none :=
  ⟨rfl, C8_get_absent (fun s => some s) [] none "X" 1 rfl⟩

/-- C1 counterexample: with two physical objects under the prefix both carrying
`metadata.id = "X"`, `get("X")` does fail with the multiple-objects error, but
`delete("X")` does NOT fail — it succeeds and deletes every matched object
(here both, leaving the empty store). -/
theorem C1_counterexample :
    fetchById (fun s => some s)
        [⟨"p/a/id=X", [("id", "X")], "va"⟩, ⟨"p/b/id=X", [("id", "X")], "vb"⟩]
        (some "p/") "X" 5 = .error (.multipleObjectsFound "X")
    ∧ deleteObject
        [⟨"p/a/id=X", [("id", "X")], "va"⟩, ⟨"p/b/id=X", [("id", "X")], "vb"⟩]
        (some "p/") "X" 5 = .ok [] :=
  ⟨rfl, rfl⟩

/-- C1 (amended): whenever the locator returns two or more physical keys for a
logical id, `get(id)` fails with the multiple-objects error, while `delete(id)`
does not fail: it deletes every located physical key (choosing none of them
silently, but raising no error either). -/
theorem C1_get_errors_delete_removes_all {α : Type} (decode : String → Option α)
    (store : Store) (pfx : Option String) (id : String) (ps : Nat) (keys : List String)
    (hfind : findObjectsByMetadata store pfx "id" id ps = .ok keys)
    (h2 : 2 ≤ keys.length) :
    fetchById decode store pfx id ps = .error (.multipleObjectsFound id)
    ∧ deleteObject store pfx id ps = .ok (deleteKeysRun store keys) := by
  have h0 : (keys.length == 0) = false := by
    simp only [beq_eq_false_iff_ne, ne_eq]
    omega
  have h1 : keys.length > 1 := by omega
  constructor
  · simp [fetchById, hfind, h0, h1]
  · simp [deleteObject, hfind, h0]

/-- Witness for C1's amended theorem at a concrete corrupted store. -/
theorem C1_witness :
    findObjectsByMetadata
        [⟨"q/a/id=Y", [("id", "Y")], "a"⟩, ⟨"q/b/id=Y", [("id", "Y")], "b"⟩]
        (some "q/") "id" "Y" 3 = .ok ["q/a/id=Y", "q/b/id=Y"]
    ∧ fetchById (fun s => some s)
        [⟨"q/a/id=Y", [("id", "Y")], "a"⟩, ⟨"q/b/id=Y", [("id", "Y")], "b"⟩]
        (some "q/") "Y" 3 = .error (.multipleObjectsFound "Y") :=
  ⟨rfl, (C1_get_errors_delete_removes_all (fun s => some s)
      [⟨"q/a/id=Y", [("id", "Y")], "a"⟩, ⟨"q/b/id=Y", [("id", "Y")], "b"⟩]
      (some "q/") "Y" 3 ["q/a/id=Y", "q/b/id=Y"] rfl (by decide)).1⟩

/-- C10 (code-bug exhibit): the locator calls issued by `get` (`fetchById`) and
`delete` (`deleteObject`) go through a freshly constructed default client, not
the supplied one, because the source passes no `client` to
`findObjectsByMetadata`; the put, body-get and list calls do use the supplied
client. -/
theorem C10_client_use :
    fetchByIdClients .supplied = ((.defaultNew, .defaultNew), .supplied)
    ∧ deleteObjectClients .supplied = ((.defaultNew, .defaultNew), .supplied)
    ∧ saveObjectClient .supplied = .supplied
    ∧ listOpClients .supplied = (.supplied, .supplied) :=
  ⟨rfl, rfl, rfl, rfl⟩

/-- C9: `delete(id)` succeeds without error when the locator finds zero
matching keys, deleting twice in a row both succeed, a store `NoSuchKey` error
on an individual delete is swallowed as already-satisfied, and every other
transport error propagates to the caller. -/
theorem C9_delete_idempotent (store : Store) (pfx : Option String) (id : String)
    (ps : Nat) (hps : 0 < ps) :
    (findObjectsByMetadata store pfx "id" id ps = .ok [] →
        deleteObject store pfx id ps = .ok store)
    ∧ (∃ s', deleteObject store pfx id ps = .ok s'
        ∧ ∃ s'', deleteObject s' pfx id ps = .ok s'')
    ∧ (∀ (del : String → Except RepoError Unit) (ks : List String),
        (∀ k ∈ ks, del k = .ok () ∨ ∃ k', del k = .error (RepoError.noSuchKey k')) →
        deleteKeysLoop del ks = .ok ())
    ∧ (∀ (del : String → Except RepoError Unit) (ks₁ : List String) (k : String)
        (ks₂ : List String) (e : RepoError),
        (∀ k' ∈ ks₁, del k' = .ok ()) → del k = .error e → e.isNoSuchKey = false →
        deleteKeysLoop del (ks₁ ++ k :: ks₂) = .error e) := by
  have hone : ∀ st : Store, ∃ s', deleteObject st pfx id ps = .ok s' := by
    intro st
    by_cases hc : (((matchingKeys st pfx).filter
        fun c => metaValue st c "id" == some id).length == 0) = true
    · exact ⟨st, by
        rw [deleteObject, findObjectsByMetadata_eq st pfx "id" id ps hps]
        simp [hc]⟩
    · exact ⟨deleteKeysRun st ((matchingKeys st pfx).filter
          fun c => metaValue st c "id" == some id), by
        rw [deleteObject, findObjectsByMetadata_eq st pfx "id" id ps hps]
        simp [hc]⟩
  refine ⟨?_, ?_, deleteKeysLoop_ok, deleteKeysLoop_propagates⟩
  · intro h
    rw [deleteObject, h]
    simp
  · rcases hone store with ⟨s', hs'⟩
    rcases hone s' with ⟨s'', hs''⟩
    exact ⟨s', hs', s'', hs''⟩

/-- Witness for C9 at concrete inputs: delete on an id never saved succeeds,
all-`NoSuchKey` outcomes are swallowed, and a transport error propagates. -/
theorem C9_witness :
    deleteObject [] none "X" 1 = .ok []
    ∧ deleteKeysLoop (fun k => .error (RepoError.noSuchKey k)) ["a", "b"] = .ok ()
    ∧ deleteKeysLoop (fun _ => .error (RepoError.transport "boom")) ["k"]
        = .error (RepoError.transport "boom") := by
  refine ⟨(C9_delete_idempotent [] none "X" 1 (by decide)).1 rfl, ?_, ?_⟩
  · exact (C9_delete_idempotent [] none "X" 1 (by decide)).2.2.1
      (fun k => .error (RepoError.noSuchKey k)) ["a", "b"]
      (fun k _ => Or.inr ⟨k, rfl⟩)
  · exact (C9_delete_idempotent [] none "X" 1 (by decide)).2.2.2
      (fun _ => .error (RepoError.transport "boom")) [] "k" [] (RepoError.transport "boom")
      (fun k' hk' => absurd hk' (List.not_mem_nil k')) rfl rfl

/-- C4 counterexample: a listed entry whose body fails to parse is NOT dropped:
it makes the whole `list()` call fail with the parse error (here the body
`"x"` does not decode, and the call returns the error instead of the list of
the readable entries). -/
theorem C4_counterexample :
    listOp (fun s => if s == "1" then some 1 else none)
        [⟨"k1", [], "1"⟩, ⟨"k2", [], "x"⟩] none 5
      = .error (.parseError "x") :=
  rfl

/-- C4 (amended): `list()` returns the deserialized bodies of all listed keys,
and an entry that vanished between the listing phase (`storeL`) and the fetch
phase (`storeF`) is dropped from the result set; but an entry whose body fails
to parse is never dropped — if the call succeeds, every listed key still
present decoded successfully. -/
theorem C4_list_drop_policy {α : Type} (decode : String → Option α)
    (storeL storeF : Store) (pfx : Option String) (ps : Nat) :
    ((∀ o ∈ storeF, o.key ∈ listObjectKeys storeL pfx ps → (decode o.body).isSome = true) →
      listOpWith decode storeL storeF pfx ps =
        .ok ((listObjectKeys storeL pfx ps).filterMap
          fun k => (findObj storeF k).bind fun o => decode o.body))
    ∧ (∀ res, listOpWith decode storeL storeF pfx ps = .ok res →
        ∀ k ∈ listObjectKeys storeL pfx ps, ∀ o, findObj storeF k = some o →
          decode o.body ≠ none) := by
  constructor
  · intro h
    have hall : ∀ k ∈ listObjectKeys storeL pfx ps, ∀ o, findObj storeF k = some o →
        (decode o.body).isSome = true := by
      intro k hk o hfo
      rcases findObj_mem_key hfo with ⟨homem, hokey⟩
      exact h o homem (by rw [hokey]; exact hk)
    exact listOpWith_ok decode storeL storeF pfx ps hall
  · intro res hres
    rw [listOpWith] at hres
    cases hall : fetchAllByKeys decode storeF (listObjectKeys storeL pfx ps) with
    | error e => simp [hall] at hres
    | ok rs => exact fetchAllByKeys_ok_no_parse_failure decode storeF _ rs hall

/-- Witness for C4's amended theorem: with a one-object store whose body
decodes, `list` succeeds and returns the decoded body. -/
theorem C4_witness :
    listOpWith (fun s => if s == "1" then some 1 else none)
        [⟨"k1", [], "1"⟩] [⟨"k1", [], "1"⟩] none 5
      = .ok (([("k1" : String)]).filterMap
          fun k => (findObj [⟨"k1", [], "1"⟩] k).bind
            fun o => (if o.body == "1" then some 1 else none)) :=
  (C4_list_drop_policy (fun s => if s == "1" then some 1 else none)
      [⟨"k1", [], "1"⟩] [⟨"k1", [], "1"⟩] none 5).1 (by decide)

/-- C6: the lister follows continuation tokens until the store reports no
further token, returning the concatenation of every page's keys — i.e. all
keys under the prefix, for any positive page size; consequently, on a static
store (no concurrent mutation), `list()` returns exactly the decoded documents
of the objects under the prefix, even when they span several listing pages. -/
theorem C6_lister_pagination {α : Type} (decode : String → Option α) (store : Store)
    (pfx : Option String) (ps : Nat) (hps : 0 < ps) :
    listObjectKeys store pfx ps = (store.map S3Object.key).filter (keyMatches pfx)
    ∧ ((store.map S3Object.key).Nodup →
        (∀ o ∈ store, keyMatches pfx o.key = true → (decode o.body).isSome = true) →
        listOp decode store pfx ps =
          .ok ((store.filter fun o => keyMatches pfx o.key).filterMap
            fun o => decode o.body)) := by
  have h1 : listObjectKeys store pfx ps = matchingKeys store pfx :=
    listObjectKeys_eq store pfx ps hps
  refine ⟨h1, ?_⟩
  intro hnd hdec
  have hall : ∀ k ∈ listObjectKeys store pfx ps, ∀ o, findObj store k = some o →
      (decode o.body).isSome = true := by
    intro k hk o hfo
    rcases findObj_mem_key hfo with ⟨homem, hokey⟩
    rw [h1, matchingKeys] at hk
    have hkm : keyMatches pfx k = true := (List.mem_filter.1 hk).2
    exact hdec o homem (by rw [hokey]; exact hkm)
  rw [listOp, listOpWith_ok decode store store pfx ps hall, h1, matchingKeys,
    filterMap_keys_filter store hnd (keyMatches pfx) (fun o => decode o.body)]

/-- Witness for C6 at a concrete input whose three keys span two pages of size
two: the lister returns all of them and `list` returns all decoded bodies. -/
theorem C6_witness :
    0 < 2
    ∧ (listObjectKeys [⟨"a", [], "1"⟩, ⟨"b", [], "2"⟩, ⟨"c", [], "3"⟩] none 2
          = (([⟨"a", [], "1"⟩, ⟨"b", [], "2"⟩, ⟨"c", [], "3"⟩] : Store).map
              S3Object.key).filter (keyMatches none)
        ∧ listOp (fun s => some s) [⟨"a", [], "1"⟩, ⟨"b", [], "2"⟩, ⟨"c", [], "3"⟩] none 2
          = .ok ((([⟨"a", [], "1"⟩, ⟨"b", [], "2"⟩, ⟨"c", [], "3"⟩] : Store).filter
                fun o => keyMatches none o.key).filterMap fun o => some o.body)) :=
  ⟨by decide,
    (C6_lister_pagination (fun s => some s)
        [⟨"a", [], "1"⟩, ⟨"b", [], "2"⟩, ⟨"c", [], "3"⟩] none 2 (by decide)).1,
    (C6_lister_pagination (fun s => some s)
        [⟨"a", [], "1"⟩, ⟨"b", [], "2"⟩, ⟨"c", [], "3"⟩] none 2 (by decide)).2
      (by decide) (by decide)⟩

/-- C3 counterexample: the supplied prefix `"p//"` is "normalized" to itself,
which ends with two separators, not exactly one; and with supplied prefix
`"p"`, `get` locates (and returns) an object stored at key `"px"`, i.e. the
read path enumerates candidates under the raw prefix `"p"`, not under the
normalized prefix `"p/"` (which is not a prefix of `"px"`). -/
theorem C3_counterexample :
    normalizePrefix (some "p//") = "p//"
    ∧ strEndsWith "p//" "//" = true
    ∧ fetchById (fun s => some s) [⟨"px", [("id", "X")], "v"⟩] (some "p") "X" 5
        = .ok (some "v")
    ∧ strPrefixOf "p/" "px" = false :=
  ⟨rfl, rfl, rfl, rfl⟩

/-- C3 (amended): `save` prepends the normalized prefix, and the normalized
prefix always ends with at least one separator (exactly one only when the
supplied prefix did not already end with separators); `get`, `delete` and
`list` enumerate candidate keys under the raw supplied prefix, not the
normalized one. -/
theorem C3_prefix_use {α : Type} (encode : α → String) (store : Store)
    (bucket p id : String) (data : α) (now : JsDate) (ps : Nat) (hps : 0 < ps) :
    strPrefixOf (normalizePrefix (some p))
        ((saveObject encode store bucket (some p) id data now).2.key) = true
    ∧ strEndsWith (normalizePrefix (some p)) "/" = true
    ∧ listObjectKeys store (some p) ps
        = (store.map S3Object.key).filter fun k => strPrefixOf p k := by
  refine ⟨?_, normalizePrefix_endsWith p, ?_⟩
  · exact strPrefixOf_append (normalizePrefix (some p)) _
  · rw [listObjectKeys_eq store (some p) ps hps, matchingKeys]
    exact List.filter_congr (fun k _ => rfl)

/-- Witness for C3's amended theorem at a concrete input. -/
theorem C3_witness :
    0 < 1
    ∧ (strPrefixOf (normalizePrefix (some "w"))
          ((saveObject (fun s : String => s) [⟨"wx", [], "z"⟩] "b" (some "w") "7" "d"
              ⟨2024, 2, 7⟩).2.key) = true
        ∧ strEndsWith (normalizePrefix (some "w")) "/" = true
        ∧ listObjectKeys [⟨"wx", [], "z"⟩] (some "w") 1
            = (([⟨"wx", [], "z"⟩] : Store).map S3Object.key).filter
                fun k => strPrefixOf "w" k) :=
  ⟨by decide, C3_prefix_use (fun s : String => s) [⟨"wx", [], "z"⟩] "b" "w" "7" "d"
      ⟨2024, 2, 7⟩ 1 (by decide)⟩

/-- C7: the partitioned-path builder joins `name=value` segments with `/` and
the id pair passed by `save` becomes the final `id=<id>` segment, so `save`
writes a key of the form `[prefix/]year=Y/month=M/day=D/id=<id>`, with the
three date segments all taken from the single captured wall-clock instant
`now` (the source reads `new Date()` exactly once). -/
theorem C7_partitioned_key {α : Type} (encode : α → String) (store : Store)
    (bucket : String) (pfx : Option String) (id : String) (data : α) (now : JsDate) :
    (∀ (parts : List PartitionKey) (i : String),
        buildPartitionedPath (parts ++ [⟨"id", i⟩]) =
          if parts.isEmpty then "id=" ++ i
          else buildPartitionedPath parts ++ "/id=" ++ i)
    ∧ (saveObject encode store bucket pfx id data now).2.key =
        normalizePrefix pfx ++ "year=" ++ toString now.utcFullYear
          ++ "/month=" ++ toString (now.utcMonth + 1)
          ++ "/day=" ++ toString now.utcDate ++ "/id=" ++ id := by
  have hA : ∀ (parts : List PartitionKey) (i : String),
      buildPartitionedPath (parts ++ [⟨"id", i⟩]) =
        if parts.isEmpty then "id=" ++ i
        else buildPartitionedPath parts ++ "/id=" ++ i := by
    intro parts i
    cases parts with
    | nil => rfl
    | cons a as =>
      rw [show ((a :: as) ++ [(⟨"id", i⟩ : PartitionKey)])
          = a :: (as ++ [⟨"id", i⟩]) from rfl]
      rw [buildPartitionedPath, List.map_cons, List.map_append]
      simp only [List.map_cons, List.map_nil]
      rw [show ∀ (b : String) (l : List String),
          String.intercalate "/" (b :: l) = String.intercalate.go b "/" l
          from fun b l => rfl]
      rw [intercalate_go_append_single]
      rw [show buildPartitionedPath (a :: as)
          = String.intercalate.go (a.name ++ "=" ++ a.value) "/"
              (as.map fun q => q.name ++ "=" ++ q.value) from rfl]
      rw [show (List.isEmpty (a :: as)) = false from rfl]
      simp only [Bool.false_eq_true, if_false]
      have hi : ∀ r : String, "/" ++ ("id=" ++ r) = "/id=" ++ r := fun r => by
        rw [← String.append_assoc]; rfl
      simp [String.append_assoc]
      rw [hi]
  refine ⟨hA, ?_⟩
  have hbp : buildPartitionedPath (getDatePartitions now) =
      "year=" ++ toString now.utcFullYear ++ "/month=" ++ toString (now.utcMonth + 1)
        ++ "/day=" ++ toString now.utcDate := by
    show ((("year" ++ "=" ++ toString now.utcFullYear) ++ "/"
        ++ ("month" ++ "=" ++ toString (now.utcMonth + 1))) ++ "/"
        ++ ("day" ++ "=" ++ toString now.utcDate)) = _
    have hm : ∀ r : String, "/" ++ ("month=" ++ r) = "/month=" ++ r := fun r => by
      rw [← String.append_assoc]; rfl
    have hd : ∀ r : String, "/" ++ ("day=" ++ r) = "/day=" ++ r := fun r => by
      rw [← String.append_assoc]; rfl
    simp [String.append_assoc]
    rw [hd, hm]
  have hkey : (saveObject encode store bucket pfx id data now).2.key =
      normalizePrefix pfx ++ buildPartitionedPath (getDatePartitions now ++ [⟨"id", id⟩]) := by
    cases pfx <;> rfl
  rw [hkey, hA (getDatePartitions now) id]
  rw [show (getDatePartitions now).isEmpty = false from rfl]
  simp only [Bool.false_eq_true, if_false]
  rw [hbp]
  simp [String.append_assoc]

/-- C5 counterexample: two repositories on the same bucket with the distinct
prefixes `"a/"` and `"a/b/"`: a document saved through the `"a/b/"` repository
is observed by `list()` of the `"a/"` repository. -/
theorem C5_counterexample :
    ("a/" : String) ≠ "a/b/"
    ∧ listOp (fun s => some s)
        (saveObject (fun s : String => s) [] "b" (some "a/b/") "X" "doc" ⟨2024, 2, 7⟩).1
        (some "a/") 5
      = .ok ["doc"] :=
  ⟨by decide, rfl⟩

/-- C5 (amended): prefix isolation holds provided neither supplied prefix is a
string-prefix of the other (every key the second repository's `save` writes
carries the second raw prefix, since the raw prefix is a string-prefix of its
normalization): then the first repository's `list` never surfaces a key of the
second, its `delete` never removes an object of the second, and its `get`
never returns a document stored under the second's prefix. -/
theorem C5_prefix_isolation {α : Type} (encode : α → String) (decode : String → Option α)
    (store store2 : Store) (bucket pa pb id id2 : String) (data : α) (now : JsDate)
    (ps : Nat) (hps : 0 < ps)
    (hab : strPrefixOf pa pb = false) (hba : strPrefixOf pb pa = false) :
    (∀ k ∈ listObjectKeys store (some pa) ps, strPrefixOf pb k = false)
    ∧ strPrefixOf pb ((saveObject encode store2 bucket (some pb) id2 data now).2.key) = true
    ∧ (∀ (o : S3Object) (s' : Store), o ∈ store → strPrefixOf pb o.key = true →
        deleteObject store (some pa) id ps = .ok s' → o ∈ s')
    ∧ (∀ t, fetchById decode store (some pa) id ps = .ok (some t) →
        ∃ o, o ∈ store ∧ strPrefixOf pb o.key = false ∧ decode o.body = some t) := by
  have hnp : ∀ k, strPrefixOf pa k = true → strPrefixOf pb k = false := by
    intro k hpa
    cases hpbk : strPrefixOf pb k with
    | false => rfl
    | true =>
      exfalso
      rcases strPrefixOf_trichot pa pb k hpa hpbk with h | h
      · exact Bool.noConfusion (hab.symm.trans h)
      · exact Bool.noConfusion (hba.symm.trans h)
  have hkeysA : ∀ k ∈ listObjectKeys store (some pa) ps, strPrefixOf pa k = true := by
    intro k hk
    rw [listObjectKeys_eq store (some pa) ps hps, matchingKeys] at hk
    exact (List.mem_filter.1 hk).2
  have hFa : ∀ k ∈ (matchingKeys store (some pa)).filter
      (fun c => metaValue store c "id" == some id), strPrefixOf pa k = true := by
    intro k hk
    exact (List.mem_filter.1 (List.mem_filter.1 hk).1).2
  refine ⟨fun k hk => hnp k (hkeysA k hk), ?_, ?_, ?_⟩
  · rw [show (saveObject encode store2 bucket (some pb) id2 data now).2.key
        = normalizePrefix (some pb)
          ++ buildPartitionedPath (getDatePartitions now ++ [⟨"id", id2⟩]) from rfl]
    exact keyMatches_normalizePrefix_append (some pb) _
  · intro o s' ho hpbo hdel
    rw [deleteObject_of_find store (some pa) id ps _
        (findObjectsByMetadata_eq store (some pa) "id" id ps hps)] at hdel
    by_cases hc : ((((matchingKeys store (some pa)).filter
        fun c => metaValue store c "id" == some id)).length == 0) = true
    · rw [if_pos hc] at hdel
      simp only [Except.ok.injEq] at hdel
      rw [← hdel]
      exact ho
    · rw [if_neg hc] at hdel
      simp only [Except.ok.injEq] at hdel
      rw [← hdel]
      apply mem_deleteKeysRun store _ o ho
      intro k hkF heq
      have hbk : strPrefixOf pb k = false := hnp k (hFa k hkF)
      rw [← heq, hpbo] at hbk
      exact Bool.noConfusion hbk
  · intro t hget
    have hfind := findObjectsByMetadata_eq store (some pa) "id" id ps hps
    rcases hF : (matchingKeys store (some pa)).filter
        (fun c => metaValue store c "id" == some id) with _ | ⟨k, rest⟩
    · rw [hF] at hfind
      rw [fetchById_of_find_nil decode store (some pa) id ps hfind] at hget
      simp at hget
    · cases rest with
      | cons k2 r2 =>
        rw [hF] at hfind
        rw [fetchById_of_find_multi decode store (some pa) id ps k k2 r2 hfind] at hget
        simp at hget
      | nil =>
        rw [hF] at hfind
        rw [fetchById_of_find_single decode store (some pa) id ps k hfind] at hget
        cases hfo : findObj store k with
        | none => simp [fetchByKey, hfo] at hget
        | some o =>
          cases hde : decode o.body with
          | none => simp [fetchByKey, hfo, hde] at hget
          | some t' =>
            simp [fetchByKey, hfo, hde] at hget
            rcases findObj_mem_key hfo with ⟨homem, hokey⟩
            have hka : strPrefixOf pa k = true := by
              apply hFa
              rw [hF]
              exact List.mem_cons_self k []
            refine ⟨o, homem, ?_, ?_⟩
            · rw [hokey]
              exact hnp k hka
            · rw [hde, hget]

theorem fetchById_storePut {α : Type} (decode : String → Option α) (store : Store)
    (pfx : Option String) (id : String) (ps : Nat) (obj : S3Object) (t : α)
    (hps : 0 < ps)
    (hnd : (store.map S3Object.key).Nodup)
    (hclean : ∀ o ∈ store,
      ¬(keyMatches pfx o.key = true ∧ lookupMeta o.metadata "id" = some id))
    (hkm : keyMatches pfx obj.key = true)
    (hmeta : lookupMeta obj.metadata "id" = some id)
    (hdec : decode obj.body = some t) :
    fetchById decode (storePut store obj) pfx id ps = .ok (some t) := by
  have hfself : findObj (storePut store obj) obj.key = some obj :=
    findObj_storePut_self store obj
  have hmain : ((storePut store obj).map S3Object.key).filter
      (fun c => (metaValue (storePut store obj) c "id" == some id) && keyMatches pfx c)
      = [obj.key] := by
    apply filter_eq_singleton
    · rw [map_key_storePut]
      by_cases hm : obj.key ∈ store.map S3Object.key
      · rw [if_pos hm]
        exact hnd
      · rw [if_neg hm]
        refine List.nodup_append.2 ⟨hnd, List.nodup_singleton _, ?_⟩
        intro a ha hb
        rw [List.mem_singleton] at hb
        subst hb
        exact hm ha
    · rw [map_key_storePut]
      by_cases hm : obj.key ∈ store.map S3Object.key
      · rw [if_pos hm]
        exact hm
      · rw [if_neg hm]
        exact List.mem_append_right _ (List.mem_singleton_self _)
    · have hmv : metaValue (storePut store obj) obj.key "id" = some id := by
        simp only [metaValue, hfself]
        exact hmeta
      rw [hmv]
      simp [hkm]
    · intro b hb hbne
      have hbmem : b ∈ store.map S3Object.key := by
        rw [map_key_storePut] at hb
        by_cases hm : obj.key ∈ store.map S3Object.key
        · rw [if_pos hm] at hb
          exact hb
        · rw [if_neg hm] at hb
          rcases List.mem_append.1 hb with h | h
          · exact h
          · exact absurd (List.mem_singleton.1 h) hbne
      have hmvb : metaValue (storePut store obj) b "id" = metaValue store b "id" := by
        simp only [metaValue, findObj_storePut_ne store obj b hbne]
      rw [hmvb]
      cases hQ : (metaValue store b "id" == some id) with
      | false => simp
      | true =>
        cases hKM : keyMatches pfx b with
        | false => simp [hKM]
        | true =>
          exfalso
          have hmv : metaValue store b "id" = some id := beq_iff_eq.1 hQ
          cases hfo : findObj store b with
          | none =>
            simp only [metaValue, hfo] at hmv
            cases hmv
          | some o =>
            simp only [metaValue, hfo] at hmv
            rcases findObj_mem_key hfo with ⟨homem, hokey⟩
            exact hclean o homem ⟨by rw [hokey]; exact hKM, hmv⟩
  have hfind : findObjectsByMetadata (storePut store obj) pfx "id" id ps
      = .ok [obj.key] := by
    rw [findObjectsByMetadata_eq (storePut store obj) pfx "id" id ps hps,
      matchingKeys, List.filter_filter, hmain]
  rw [fetchById_of_find_single decode (storePut store obj) pfx id ps obj.key hfind]
  simp [fetchByKey, hfself, hdec]

/-- C2 counterexample: on a store that already holds an orphaned physical
object carrying `metadata.id = "X"` under the prefix (as a save of the same id
in an earlier partition leaves behind), `save("X", data)` followed by
`get("X")` — same partition, no intervening mutation — does not return `data`:
it fails with the multiple-objects error. -/
theorem C2_counterexample :
    fetchById (fun s => some s)
        (saveObject (fun s : String => s) [⟨"p/old/id=X", [("id", "X")], "old"⟩]
            "b" (some "p/") "X" "new" ⟨2024, 2, 7⟩).1
        (some "p/") "X" 5
      = .error (.multipleObjectsFound "X") :=
  rfl

/-- C2 (amended): `save(id, data)` followed by `get(id)`, with no intervening
mutation, returns exactly `data` — provided the serialization round-trips on
`data` (JSON-serializable payload), the store's keys are unique, and no
pre-existing physical object under the repository's prefix already carries
metadata id equal to `id` (which a save of the same id in another partition
would leave behind). -/
theorem C2_save_get_roundtrip {α : Type} (encode : α → String) (decode : String → Option α)
    (store : Store) (bucket : String) (pfx : Option String) (id : String) (data : α)
    (now : JsDate) (ps : Nat) (hps : 0 < ps)
    (hdec : decode (encode data) = some data)
    (hnd : (store.map S3Object.key).Nodup)
    (hclean : ∀ o ∈ store,
      ¬(keyMatches pfx o.key = true ∧ lookupMeta o.metadata "id" = some id)) :
    fetchById decode (saveObject encode store bucket pfx id data now).1 pfx id ps
      = .ok (some data) := by
  have hsv : (saveObject encode store bucket pfx id data now).1 =
      storePut store ⟨normalizePrefix pfx ++ buildPartitionedPath
        (getDatePartitions now ++ [⟨"id", id⟩]), [("id", id)], encode data⟩ := by
    cases pfx <;> rfl
  rw [hsv]
  exact fetchById_storePut decode store pfx id ps _ data hps hnd hclean
    (keyMatches_normalizePrefix_append pfx _) rfl hdec

/-- Witness for C2's amended theorem: saving into the empty repository and
reading back returns the saved payload. -/
theorem C2_witness :
    0 < 5
    ∧ fetchById (fun s => some s)
        (saveObject (fun s : String => s) [] "b" (some "p/") "X" "new" ⟨2024, 2, 7⟩).1
        (some "p/") "X" 5 = .ok (some "new") :=
  ⟨by decide, C2_save_get_roundtrip (fun s : String => s) (fun s => some s) [] "b"
      (some "p/") "X" "new" ⟨2024, 2, 7⟩ 5 (by decide) rfl (by decide)
      (fun o ho => absurd ho (List.not_mem_nil o))⟩

/-- Witness for C5's amended theorem at concrete inputs: with the
non-slash-terminated prefixes `"a"` and `"b"` (neither a string-prefix of the
other), keys listed by the first repository never carry the second prefix, and
the first repository's delete leaves the second repository's object in
place. -/
theorem C5_witness :
    strPrefixOf "b" "a/x" = false
    ∧ (⟨"b/y", [("id", "X")], "w"⟩ : S3Object) ∈ ([⟨"b/y", [("id", "X")], "w"⟩] : Store) := by
  constructor
  · exact (C5_prefix_isolation (fun s : String => s) (fun s => some s)
        [⟨"a/x", [("id", "X")], "v"⟩, ⟨"b/y", [("id", "X")], "w"⟩] [] "b" "a" "b" "X" "Z"
        "d" ⟨2024, 2, 7⟩ 1 (by decide) (by decide) (by decide)).1
      "a/x" (by decide)
  · exact (C5_prefix_isolation (fun s : String => s) (fun s => some s)
        [⟨"a/x", [("id", "X")], "v"⟩, ⟨"b/y", [("id", "X")], "w"⟩] [] "b" "a" "b" "X" "Z"
        "d" ⟨2024, 2, 7⟩ 1 (by decide) (by decide) (by decide)).2.2.1
      ⟨"b/y", [("id", "X")], "w"⟩ [⟨"b/y", [("id", "X")], "w"⟩] (by decide) (by decide) rfl

end S3Repo
